import Mathlib

/-!
# Verification of the AutoTestGenAI core generator

A shallow embedding of `src/core/generator.py` (the `generator` module of the
AutoTestGenAI pipeline), together with theorems settling the specified
properties of its pure data-processing core:

* `build_prompt`            — prompt construction (generator.py, Step 2)
* `extract_component`       — component-name extraction via the regular
                              expression `(?im)^\s*Component\s*:\s*(.+?)\s*$`
                              (generator.py, Step 4)
* `parse_markdown_table`    — markdown-table parsing with its nested
                              `clean_cell` normalizer (generator.py, Step 5)
* `fill_excel_template`     — projection of parsed records onto the template
                              worksheet (generator.py, Step 6)

Strings are modelled as Lean `String`s (lists of unicode characters);
Python `str` methods used by the source (`splitlines`, `split("|")`,
`split(":", 1)`, `strip`, `lower`, `replace`, `startswith`, the `in`
substring test) are embedded as structurally recursive functions below, so
every definition evaluates by `rfl`/`decide`.  File I/O (loading `SRS.docx`,
the HTTP call, loading/saving the workbook) stays outside the embedding:
`fill_excel_template` is modelled as a pure map from the template's
"Testcases" sheet value to the output sheet value, which is exactly the
load-then-save-as-copy semantics of the source.
-/

/-! ## Python character classes

`isPyWs` models the character set matched by Python's `\s` (and stripped by
`str.strip()`) for `str` patterns; `isPyLineBreak` models the line
boundaries recognised by `str.splitlines()`.  Both cover the full sets
documented for CPython. -/

def isPyWs (c : Char) : Bool :=
  c = ' ' || c = '\t' || c = '\n' || c.toNat = 0x0b || c.toNat = 0x0c ||
  c = '\r' || c.toNat = 0x1c || c.toNat = 0x1d || c.toNat = 0x1e ||
  c.toNat = 0x1f || c.toNat = 0x85 || c.toNat = 0xa0 || c.toNat = 0x1680 ||
  (0x2000 ≤ c.toNat && c.toNat ≤ 0x200a) ||
  c.toNat = 0x2028 || c.toNat = 0x2029 || c.toNat = 0x202f ||
  c.toNat = 0x205f || c.toNat = 0x3000

def isPyLineBreak (c : Char) : Bool :=
  c = '\n' || c = '\r' || c.toNat = 0x0b || c.toNat = 0x0c ||
  c.toNat = 0x1c || c.toNat = 0x1d || c.toNat = 0x1e || c.toNat = 0x85 ||
  c.toNat = 0x2028 || c.toNat = 0x2029

/-! ## Python string primitives -/

/-- Trailing-whitespace removal on character lists. -/
def dropTrailingWs (l : List Char) : List Char :=
  (l.reverse.dropWhile isPyWs).reverse

/-- Python `str.strip()` on character lists. -/
def stripChars (l : List Char) : List Char :=
  dropTrailingWs (l.dropWhile isPyWs)

/-- Python `str.strip()`. -/
def pyStrip (s : String) : String :=
  String.mk (stripChars s.data)

/-- Python `str.lower()` (ASCII case mapping). -/
def pyLower (s : String) : String :=
  String.mk (s.data.map Char.toLower)

/-- Python `str.splitlines()`: accumulator-based scan; `\r\n` counts as one
boundary; a trailing boundary produces no empty final line. -/
def splitlinesAux : List Char → List Char → List String
  | [], acc => if acc.isEmpty then [] else [String.mk acc.reverse]
  | '\r' :: '\n' :: rest, acc => String.mk acc.reverse :: splitlinesAux rest []
  | c :: rest, acc =>
    if isPyLineBreak c then String.mk acc.reverse :: splitlinesAux rest []
    else splitlinesAux rest (c :: acc)

/-- Python `str.splitlines()`. -/
def pySplitlines (s : String) : List String :=
  splitlinesAux s.data []

/-- Substring test on character lists (Python's `pat in s`). -/
def containsSub : List Char → List Char → Bool
  | [], pat => pat.isEmpty
  | c :: rest, pat => pat.isPrefixOf (c :: rest) || containsSub rest pat

/-- Python's `pat in s` substring test. -/
def strContains (s pat : String) : Bool :=
  containsSub s.data pat.data

/-- Python `s.split("|")` on character lists: split at every `'|'`, keeping
empty segments. -/
def splitPipeAux : List Char → List Char → List String
  | [], acc => [String.mk acc.reverse]
  | c :: rest, acc =>
    if c = '|' then String.mk acc.reverse :: splitPipeAux rest []
    else splitPipeAux rest (c :: acc)

/-- Python `s.split("|")`. -/
def splitPipe (s : String) : List String :=
  splitPipeAux s.data []

/-- Python `s.startswith(pat)`. -/
def strStarts (s pat : String) : Bool :=
  pat.data.isPrefixOf s.data

/-- Python `s.rstrip(":")`: remove trailing colons. -/
def rstripColon (s : String) : String :=
  String.mk ((s.data.reverse.dropWhile (fun c => c = ':')).reverse)

/-- Python `s.split(":", 1)[0]`: the part before the first colon (the whole
string when there is no colon). -/
def takeUntilColon (s : String) : String :=
  String.mk (s.data.takeWhile (fun c => c ≠ ':'))

/-! ## Step 2: `build_prompt`

Transcribed literally from `generator.py`; Python's adjacent string
literals concatenate, and the requirements text is appended with `+` at the
very end. -/

def build_prompt (srs_text : String) : String :=
  "Read the uploaded Software Requirements Specification (SRS.docx).\n" ++
  "You MUST output exactly two parts in this order:\n" ++
  "1) A single line in the exact format:\n" ++
  "   Component: <detected overall component/module/system name from the SRS>\n" ++
  "   (Put only this line first. No code fences, no extra text before it.)\n" ++
  "2) A blank line, followed immediately by a single markdown table of test cases.\n\n" ++
  "⚠️ IMPORTANT: Generate the **maximum possible coverage of test cases** from the SRS.\n" ++
  "- Include **all functional test cases** (for every requirement, feature, rule, and exception).\n" ++
  "- Include **all non-functional test cases**:\n" ++
  "  • Performance\n" ++
  "  • Usability\n" ++
  "  • Security\n" ++
  "  • Reliability\n" ++
  "  • Compatibility\n" ++
  "  • Accessibility\n" ++
  "  • Compliance\n" ++
  "  • Installation\n" ++
  "  • Recovery\n" ++
  "- Include **negative test cases** (invalid inputs, boundary conditions, failure handling).\n" ++
  "- Include **edge cases, stress cases, and corner cases**.\n" ++
  "- Include **ad-hoc / exploratory test cases**.\n" ++
  "- Include **data validation test cases**.\n" ++
  "- Include **integration test cases**.\n" ++
  "- Include **regression test cases**.\n" ++
  "- Include **accessibility test cases**.\n" ++
  "- Do not skip any scenario implied in the SRS.\n\n" ++
  "🚨 MANDATORY REQUIREMENT:\n" ++
  "- You MUST include a **separate set of test cases dedicated to IPv4 and IPv6**.\n" ++
  "- Cover IPv4 only, IPv6 only, dual-stack, fallback, invalid IPs,\n" ++
  "  performance comparison and security scenarios.\n\n" ++
  "✅ You MUST generate **at least 200 test cases** if the SRS is moderately detailed.\n" ++
  "If the SRS is short, extrapolate plausible scenarios.\n\n" ++
  "Number test cases sequentially as `TC001`, `TC002`, etc.\n" ++
  "All test cases must be in ONE continuous markdown table.\n\n" ++
  "Return the markdown table with columns exactly named:\n" ++
  "`Test Case ID` | `Preconditions` | `Test Condition` | " ++
  "`Steps with description` | `Expected Result` | " ++
  "`Actual Result` | `Remarks`\n\n" ++
  "SRS Content:\n" ++ srs_text

/-- The fixed instruction boilerplate of `build_prompt`: everything before
the appended requirements text. -/
def promptInstructions : String :=
  "Read the uploaded Software Requirements Specification (SRS.docx).\n" ++
  "You MUST output exactly two parts in this order:\n" ++
  "1) A single line in the exact format:\n" ++
  "   Component: <detected overall component/module/system name from the SRS>\n" ++
  "   (Put only this line first. No code fences, no extra text before it.)\n" ++
  "2) A blank line, followed immediately by a single markdown table of test cases.\n\n" ++
  "⚠️ IMPORTANT: Generate the **maximum possible coverage of test cases** from the SRS.\n" ++
  "- Include **all functional test cases** (for every requirement, feature, rule, and exception).\n" ++
  "- Include **all non-functional test cases**:\n" ++
  "  • Performance\n" ++
  "  • Usability\n" ++
  "  • Security\n" ++
  "  • Reliability\n" ++
  "  • Compatibility\n" ++
  "  • Accessibility\n" ++
  "  • Compliance\n" ++
  "  • Installation\n" ++
  "  • Recovery\n" ++
  "- Include **negative test cases** (invalid inputs, boundary conditions, failure handling).\n" ++
  "- Include **edge cases, stress cases, and corner cases**.\n" ++
  "- Include **ad-hoc / exploratory test cases**.\n" ++
  "- Include **data validation test cases**.\n" ++
  "- Include **integration test cases**.\n" ++
  "- Include **regression test cases**.\n" ++
  "- Include **accessibility test cases**.\n" ++
  "- Do not skip any scenario implied in the SRS.\n\n" ++
  "🚨 MANDATORY REQUIREMENT:\n" ++
  "- You MUST include a **separate set of test cases dedicated to IPv4 and IPv6**.\n" ++
  "- Cover IPv4 only, IPv6 only, dual-stack, fallback, invalid IPs,\n" ++
  "  performance comparison and security scenarios.\n\n" ++
  "✅ You MUST generate **at least 200 test cases** if the SRS is moderately detailed.\n" ++
  "If the SRS is short, extrapolate plausible scenarios.\n\n" ++
  "Number test cases sequentially as `TC001`, `TC002`, etc.\n" ++
  "All test cases must be in ONE continuous markdown table.\n\n" ++
  "Return the markdown table with columns exactly named:\n" ++
  "`Test Case ID` | `Preconditions` | `Test Condition` | " ++
  "`Steps with description` | `Expected Result` | " ++
  "`Actual Result` | `Remarks`\n\n" ++
  "SRS Content:\n"

/-! ## Step 5: `parse_markdown_table` -/

/-- Python `value.replace("<br>", "\n")`: leftmost, non-overlapping. -/
def replaceBr : List Char → List Char
  | '<' :: 'b' :: 'r' :: '>' :: rest => '\n' :: replaceBr rest
  | c :: rest => c :: replaceBr rest
  | [] => []

/-- Python `value.replace("\\n", "\n")` (literal backslash-n to newline):
leftmost, non-overlapping. -/
def replaceNl : List Char → List Char
  | '\\' :: 'n' :: rest => '\n' :: replaceNl rest
  | c :: rest => c :: replaceNl rest
  | [] => []

/-- The nested `clean_cell` of `parse_markdown_table`: empty (falsy) values
give `""`; otherwise replace `"<br>"` with a newline, then the literal
backslash-n with a newline, then strip. -/
def clean_cell (value : String) : String :=
  if value = "" then ""
  else String.mk (stripChars (replaceNl (replaceBr value.data)))

/-- The parse failures of `parse_markdown_table` (each a `ValueError`
in the source: "Markdown table header not found.",
"Incomplete markdown table.", "No test cases parsed."). -/
inductive ParseErr where
  | tableNotFound
  | incompleteTable
  | emptyResult
deriving DecidableEq, Repr

/-- A parsed record: `dict(zip(headers, cells))`, modelled as the zipped
association list.  Lookup (`tcGet`) gives Python dict semantics (for the
duplicate-free headers of interest the distinction is irrelevant). -/
abbrev TestCase := List (String × String)

/-- Python `tc.get(key)` on a `dict(zip(headers, cells))`: last binding of a
duplicated key wins, `none` when the key is absent. -/
def tcGet (tc : TestCase) (key : String) : Option String :=
  List.lookup key tc.reverse

/-- The `for i, line in enumerate(lines): if "|" in line and "Test Case ID"
in line: start_idx = i; break` scan, returning `lines[start_idx:]`. -/
def findTableStart : List String → Option (List String)
  | [] => none
  | l :: ls =>
    if strContains l "|" && strContains l "Test Case ID" then some (l :: ls)
    else findTableStart ls

/-- The `table_lines` collection loop: append lines containing `"|"`;
a line without `"|"` ends the loop once something was collected, and is
skipped otherwise. -/
def collectTable : List String → List String → List String
  | [], acc => acc.reverse
  | l :: ls, acc =>
    if strContains l "|" then collectTable ls (l :: acc)
    else if acc.isEmpty then collectTable ls acc
    else acc.reverse

/-- `row.split("|")[1:-1]`: the segments of a table line with the first and
last split segments discarded. -/
def rowSegs (row : String) : List String :=
  ((splitPipe row).drop 1).dropLast

/-- The table-processing stage of `parse_markdown_table`, applied to
`lines[start_idx:]` (the line suffix beginning at the header row). -/
def parseTableLines (tls : List String) : Except ParseErr (List TestCase) :=
  let table_lines := collectTable tls []
  if table_lines.length < 3 then Except.error ParseErr.incompleteTable
  else
    let headers := (rowSegs (table_lines.getD 0 "")).map pyStrip
    let test_cases := (table_lines.drop 2).filterMap (fun row =>
      let cells := (rowSegs row).map clean_cell
      if cells.length = headers.length then some (headers.zip cells) else none)
    if test_cases.isEmpty then Except.error ParseErr.emptyResult
    else Except.ok test_cases

/-- `parse_markdown_table` from `generator.py`, on the model response. -/
def parse_markdown_table (md : String) : Except ParseErr (List TestCase) :=
  match findTableStart (pySplitlines md) with
  | none => Except.error ParseErr.tableNotFound
  | some tls => parseTableLines tls

/-- The seven required column names, in the documented order. -/
def requiredFields : List String :=
  ["Test Case ID", "Preconditions", "Test Condition", "Steps with description",
   "Expected Result", "Actual Result", "Remarks"]

/-- `c1 ++ "|" ++ c2 ++ "|" ++ ...`: join cell texts with the column
separator. -/
def joinPipe : List String → String
  | [] => ""
  | [c] => c
  | c :: rest => c ++ "|" ++ joinPipe rest

/-- A markdown table row framed by leading and trailing separators. -/
def renderRow (cells : List String) : String :=
  "|" ++ joinPipe cells ++ "|"

/-! ## Step 4: `extract_component`

The source runs `re.search(r"(?im)^\s*Component\s*:\s*(.+?)\s*$", text)` and
returns `match.group(1).strip()`, or `"Unknown"` when there is no match.

The embedding below implements the backtracking semantics of that fixed
pattern, specialised as follows (each step is forced, so the result is
deterministic):

* `re.search` returns the match at the leftmost feasible start; with `(?m)`,
  `^` matches only at the string start and right after each `'\n'`, so the
  feasible starts are exactly the line starts in order (`componentScan`).
* `\s*` before a non-whitespace literal (`Component`, `:`) must consume the
  maximal whitespace run — stopping earlier puts a whitespace character
  where the literal is expected.  Note `\s` includes `'\n'`, so these runs
  may cross line boundaries.
* For `\s*(.+?)\s*$` after the colon, with `t` the remaining text: if `t`
  contains a non-whitespace character, the greedy `\s*` stops at the first
  one and the lazy `(.+?)` extends minimally until the rest of that
  character's line is whitespace (`.` excludes `'\n'`; `(?m)$` matches
  before `'\n'` or at the end), so the group runs from the first
  non-whitespace character to the last non-whitespace character of its
  line, and `strip()` leaves it unchanged.  If `t` is all whitespace, a
  match needs one non-`'\n'` character for `(.+?)` and then `\s*$` always
  reaches a feasible `$`; the group is a single whitespace character and
  `strip()` gives `""`.  If `t` is empty or all `'\n'`, there is no match
  at this start. -/

/-- Case-insensitive literal match (ASCII case folding, as for the ASCII
pattern `Component` under `re.IGNORECASE`): consume `pat` from the front of
the input, returning the rest. -/
def matchCI : List Char → List Char → Option (List Char)
  | [], s => some s
  | _ :: _, [] => none
  | p :: ps, c :: cs => if c.toLower = p.toLower then matchCI ps cs else none

/-- The value match for `\s*(.+?)\s*$` after the colon (see the derivation
above); returns `group(1).strip()` as a character list. -/
def matchValue (t : List Char) : Option (List Char) :=
  match t.dropWhile isPyWs with
  | [] => if t.any (fun c => c ≠ '\n') then some [] else none
  | c :: rest => some (dropTrailingWs ((c :: rest).takeWhile (fun x => x ≠ '\n')))

/-- Attempt the pattern with its start anchored at the head of `u` (a line
start): `\s*`, then `Component` case-insensitively, then `\s*`, then `:`,
then the value match. -/
def tryAt (u : List Char) : Option (List Char) :=
  match matchCI "component".data (u.dropWhile isPyWs) with
  | none => none
  | some b =>
    match b.dropWhile isPyWs with
    | c :: t => if c = ':' then matchValue t else none
    | [] => none

/-- Try the pattern at every line start after the current position, in
order (`(?m)^` matches right after each `'\n'`). -/
def componentScanAux : List Char → Option (List Char)
  | [] => none
  | c :: rest =>
    if c = '\n' then
      match tryAt rest with
      | some v => some v
      | none => componentScanAux rest
    else componentScanAux rest

/-- `re.search` for the component pattern: try the string start first, then
every later line start, returning the first match's stripped group. -/
def componentScan (u : List Char) : Option (List Char) :=
  match tryAt u with
  | some v => some v
  | none => componentScanAux u

/-- `extract_component` from `generator.py`. -/
def extract_component (md : String) : String :=
  match componentScan md.data with
  | some v => String.mk v
  | none => "Unknown"

/-! ### Spec-side model for component extraction

The specification describes `extract_component` as a per-line scan: the
first line matching `Component:<value>` (case-insensitively, with optional
leading whitespace and trailing whitespace trimmed) wins, and the sentinel
`"Unknown"` is returned when no line matches.  `specExtractComponent`
renders those words: the text is split into its `'\n'`-separated lines (the
line structure `(?m)` gives `^` and `$`), and the same single-line pattern
is applied to each line in order. -/

/-- Prepend a character onto the first of a list of lines. -/
def consHead (c : Char) : List (List Char) → List (List Char)
  | [] => [[c]]
  | l :: ls => (c :: l) :: ls

/-- Split at every `'\n'`, keeping empty segments. -/
def splitNlChars : List Char → List (List Char)
  | [] => [[]]
  | c :: rest =>
    if c = '\n' then [] :: splitNlChars rest
    else consHead c (splitNlChars rest)

/-- The `'\n'`-separated lines of a string. -/
def splitNl (s : String) : List (List Char) :=
  splitNlChars s.data

/-- Modelled from the spec: per-line component extraction — the value of
the first line matching the `Component:` pattern, else `"Unknown"`. -/
def specExtractComponent (s : String) : String :=
  match (splitNl s).findSome? tryAt with
  | some v => String.mk v
  | none => "Unknown"

/-- A line is *hazardous* when the pattern can continue past its end onto
the next line: it carries a `Component` label whose colon or value would
have to come from a later line (the tail after the label, or after the
colon, is all whitespace).  On hazard-free text the whole-text search and
the per-line scan agree. -/
def hazardous (l : List Char) : Bool :=
  match matchCI "component".data (l.dropWhile isPyWs) with
  | none => false
  | some b =>
    if b.all isPyWs then true
    else
      match b.dropWhile isPyWs with
      | c :: t => if c = ':' then t.all isPyWs else false
      | [] => false

/-! ## Step 6: `fill_excel_template`

The workbook is modelled by its "Testcases" sheet, a total map from
(row, column) — both 1-based, as in openpyxl — to cell values.  A cell
value is empty (`None`), a string, or some other (non-string) payload;
`set_header` only ever matches string-valued cells
(`isinstance(cell.value, str)`).  Loading the template and saving the
output are the external read/write-cells capabilities: the function maps
the template sheet value to the output sheet value and the template value
itself is never changed. -/

/-- An openpyxl cell value: `None`, a string, or an opaque non-string. -/
inductive CellVal where
  | vnone
  | vstr (s : String)
  | vother
deriving DecidableEq, Repr

/-- The "Testcases" worksheet: 1-based (row, column) to cell value. -/
def Sheet : Type := Nat → Nat → CellVal

/-- Write one cell. -/
def setCell (ws : Sheet) (r c : Nat) (v : CellVal) : Sheet :=
  fun r2 c2 => if r2 = r then (if c2 = c then v else ws r2 c2) else ws r2 c2

/-- Writing an `Optional[str]` via `ws.cell(row, column, value)`: openpyxl
assigns only when the value is not `None`, so a `None` value leaves the
cell's existing content unchanged. -/
def setCellOpt (ws : Sheet) (r c : Nat) (v : Option String) : Sheet :=
  match v with
  | none => ws
  | some s => setCell ws r c (CellVal.vstr s)

/-- The value of a cell after `ws.cell(row, column, value)`: the written
string when the value is present, the cell's old content when it is
`None`. -/
def cellAfterWrite (old : CellVal) (v : Option String) : CellVal :=
  match v with
  | none => old
  | some s => CellVal.vstr s

/-- The header-scan region of `set_header`: rows 1–9, columns 1–11, in
row-major order (`for r in range(1, 10): for c in range(1, 12)`). -/
def scanCells : List (Nat × Nat) :=
  ((List.range 9).map (fun r => r + 1)).foldr
    (fun r acc => (((List.range 11).map (fun c => c + 1)).map (fun c => (r, c))) ++ acc) []

/-- Does this cell hold a string whose lowercasing starts with `patLow`
(the label in lowercase followed by a colon)?  Non-string cells never
match. -/
def cellMatchesLabel (v : CellVal) (patLow : String) : Bool :=
  match v with
  | CellVal.vstr s => strStarts (pyLower s) patLow
  | _ => false

/-- The first cell of the scan region, in scan order, matching the label. -/
def findLabelCell (ws : Sheet) (patLow : String) : Option (Nat × Nat) :=
  scanCells.find? (fun rc => cellMatchesLabel (ws rc.1 rc.2) patLow)

/-- The first matching cell for the `Component` label. -/
def findComponentCell (ws : Sheet) : Option (Nat × Nat) :=
  findLabelCell ws ("component" ++ ":")

/-- The original label part of a matched cell: `cell.value.split(":", 1)[0]`. -/
def labelPart (v : CellVal) : String :=
  match v with
  | CellVal.vstr s => takeUntilColon s
  | _ => ""

/-- The nested `set_header` of `fill_excel_template`: rewrite the first
matching cell to `f"{prefix}: {value}"`, or report failure.  The generic
label is lowercased and stripped of trailing colons before the scan. -/
def set_header (ws : Sheet) (label value : String) : Option Sheet :=
  match findLabelCell ws (rstripColon (pyLower label) ++ ":") with
  | some rc => some (setCell ws rc.1 rc.2
      (CellVal.vstr (labelPart (ws rc.1 rc.2) ++ ": " ++ value)))
  | none => none

/-- The header-injection stage of `fill_excel_template`: `set_header`, with
the fallback `ws["E2"] = f"Component: {component_name}"` (row 2, column 5)
when no labelled cell exists. -/
def injectHeader (ws : Sheet) (component_name : String) : Sheet :=
  match set_header ws "Component" component_name with
  | some ws2 => ws2
  | none => setCell ws 2 5 (CellVal.vstr ("Component: " ++ component_name))

/-- Write one record at its row: the seven known fields go to columns 2–8
in the documented order; a missing field (`tc.get` returning `None`)
leaves the cell untouched, since `ws.cell` skips `None` values; any other
field of the record is never read. -/
def writeRow (ws : Sheet) (row : Nat) (tc : TestCase) : Sheet :=
  setCellOpt (setCellOpt (setCellOpt (setCellOpt (setCellOpt (setCellOpt (setCellOpt ws
    row 2 (tcGet tc "Test Case ID"))
    row 3 (tcGet tc "Preconditions"))
    row 4 (tcGet tc "Test Condition"))
    row 5 (tcGet tc "Steps with description"))
    row 6 (tcGet tc "Expected Result"))
    row 7 (tcGet tc "Actual Result"))
    row 8 (tcGet tc "Remarks")

/-- The `for i, tc in enumerate(test_cases)` loop, writing record `i` at
row `start + i`. -/
def writeRowsFrom (ws : Sheet) (start : Nat) : List TestCase → Sheet
  | [] => ws
  | tc :: rest => writeRowsFrom (writeRow ws start tc) (start + 1) rest

/-- `fill_excel_template` from `generator.py`, as the map from the template
"Testcases" sheet to the output sheet (`start_row = 6`). -/
def fill_excel_template (ws : Sheet) (test_cases : List TestCase)
    (component_name : String) : Sheet :=
  writeRowsFrom (injectHeader ws component_name) 6 test_cases

/-- The header-injection target: the matched labelled cell, or the fixed
fallback cell (row 2, column 5). -/
def headerTarget (ws : Sheet) : Nat × Nat :=
  match findComponentCell ws with
  | some rc => rc
  | none => (2, 5)

/-! ## Basic lemmas -/

theorem string_mk_data (s : String) : String.mk s.data = s := by
  cases s
  rfl

theorem containsSub_single_eq_false {l : List Char} {p : Char} :
    containsSub l [p] = false ↔ p ∉ l := by
  induction l with
  | nil => simp [containsSub]
  | cons c rest ih =>
    have hpre : [p].isPrefixOf (c :: rest) = (p == c) := by
      rw [List.isPrefixOf_cons₂]
      simp [List.isPrefixOf]
    show ([p].isPrefixOf (c :: rest) || containsSub rest [p]) = false ↔ _
    rw [hpre, Bool.or_eq_false_iff, ih, beq_eq_false_iff_ne]
    simp [List.mem_cons, not_or, eq_comm]

theorem strContains_pipe_eq_false {s : String} :
    strContains s "|" = false ↔ '|' ∉ s.data := by
  simpa [strContains] using (containsSub_single_eq_false (l := s.data) (p := '|'))

/-! ## C6: the prompt is the fixed boilerplate plus the requirements text -/

/-- C6: `build_prompt` is pure, and its result is the constant instruction
boilerplate `promptInstructions` (independent of the input, never truncated
or reordered) with the requirements text appended verbatim at the end; in
particular the prompt always ends with the input text. -/
theorem build_prompt_is_boilerplate_plus_srs (s : String) :
    build_prompt s = promptInstructions ++ s ∧ s.data <:+ (build_prompt s).data := by
  have h1 : build_prompt s = promptInstructions ++ s := by
    simp only [build_prompt, promptInstructions, String.append_assoc]
  refine ⟨h1, ?_⟩
  rw [h1, String.data_append]
  exact List.suffix_append _ _

/-! ## C2: the parser never produces an empty result -/

theorem findTableStart_eq_none {ls : List String}
    (h : ∀ l ∈ ls, strContains l "|" = false ∨ strContains l "Test Case ID" = false) :
    findTableStart ls = none := by
  induction ls with
  | nil => rfl
  | cons l rest ih =>
    have hl := h l (by simp)
    have hcond : (strContains l "|" && strContains l "Test Case ID") = false := by
      rcases hl with h1 | h1 <;> simp [h1]
    simp only [findTableStart, hcond]
    exact ih (fun x hx => h x (by simp [hx]))

/-- C2: `parse_markdown_table` never returns an empty result.  If no line
of the response contains both the column separator `"|"` and the literal
token `"Test Case ID"`, it fails with the table-not-found error; and
whenever it returns normally the record list is non-empty (zero surviving
rows is the empty-result failure, not a valid result). -/
theorem parse_markdown_table_never_empty :
    (∀ md : String,
      (∀ l ∈ pySplitlines md,
        strContains l "|" = false ∨ strContains l "Test Case ID" = false) →
      parse_markdown_table md = Except.error ParseErr.tableNotFound) ∧
    (∀ (md : String) (tcs : List TestCase),
      parse_markdown_table md = Except.ok tcs → tcs ≠ []) := by
  constructor
  · intro md h
    unfold parse_markdown_table
    rw [findTableStart_eq_none h]
  · intro md tcs h
    unfold parse_markdown_table at h
    cases hf : findTableStart (pySplitlines md) with
    | none => rw [hf] at h; cases h
    | some tls =>
      rw [hf] at h
      unfold parseTableLines at h
      simp only [] at h
      split at h
      · cases h
      · split at h
        · cases h
        · rename_i hne
          cases h
          simpa using hne

/-- Witness for C2: a concrete table-free response fails with
table-not-found, and a concretely parsed table yields a non-empty record
list. -/
theorem parse_markdown_table_never_empty_witness :
    parse_markdown_table "no table here" = Except.error ParseErr.tableNotFound ∧
    ([[(("Test Case ID" : String), ("TC001" : String))]] : List TestCase) ≠ [] := by
  constructor
  · exact parse_markdown_table_never_empty.1 "no table here" (by decide)
  · exact parse_markdown_table_never_empty.2
      "|Test Case ID|\n|-|\n|TC001|"
      [[("Test Case ID", "TC001")]]
      (by rfl)

/-! ## C5: shape of the extracted component name -/

theorem mem_dropTrailingWs {x : Char} {l : List Char} (h : x ∈ dropTrailingWs l) :
    x ∈ l := by
  unfold dropTrailingWs at h
  rw [List.mem_reverse] at h
  have := (List.dropWhile_sublist (l := l.reverse) (p := isPyWs)).mem h
  simpa using this

theorem matchValue_no_nl {t v : List Char} (h : matchValue t = some v) : '\n' ∉ v := by
  unfold matchValue at h
  split at h
  · split at h
    · cases h; simp
    · cases h
  · cases h
    intro hmem
    exact absurd (List.mem_takeWhile_imp (mem_dropTrailingWs hmem)) (by simp)

theorem tryAt_no_nl {u v : List Char} (h : tryAt u = some v) : '\n' ∉ v := by
  unfold tryAt at h
  split at h
  · cases h
  · split at h
    · split at h
      · exact matchValue_no_nl h
      · cases h
    · cases h

theorem componentScanAux_no_nl {u v : List Char} (h : componentScanAux u = some v) :
    '\n' ∉ v := by
  induction u with
  | nil => cases h
  | cons c rest ih =>
    unfold componentScanAux at h
    split at h
    · cases ht : tryAt rest with
      | some w => rw [ht] at h; cases h; exact tryAt_no_nl ht
      | none => rw [ht] at h; exact ih h
    · exact ih h

theorem componentScan_no_nl {u v : List Char} (h : componentScan u = some v) :
    '\n' ∉ v := by
  unfold componentScan at h
  cases ht : tryAt u with
  | some w => rw [ht] at h; cases h; exact tryAt_no_nl ht
  | none => rw [ht] at h; exact componentScanAux_no_nl h

/-- C5 (amended): the component name returned by `extract_component` never
contains a newline — it is single-line, defaulting to `"Unknown"` when no
match exists.  (The original claim's "never empty" is refuted by
`extract_component_empty_on_ws_value` below: a `Component:` line whose
value is whitespace-only yields the empty string.) -/
theorem extract_component_never_multiline (s : String) :
    '\n' ∉ (extract_component s).data := by
  unfold extract_component
  cases hs : componentScan s.data with
  | some v => exact componentScan_no_nl hs
  | none => decide

/-- Counterexample for C5: on `"Component: "` (a matching line whose value
part is whitespace-only) the source regex matches with a whitespace group
and `strip()` yields the empty string — the result is empty, not `"Unknown"`
and not a non-empty name. -/
theorem extract_component_empty_on_ws_value :
    extract_component "Component: " = "" := by decide

/-! ## C4: which line the component value comes from -/

/-- Counterexample for C4: `\s` matches newlines, so the pattern's
whitespace runs can cross line boundaries.  In `"Component\n: X"` no single
line matches `Component:<value>` (the per-line reading of the spec returns
the sentinel), yet the source regex matches across the two lines and
returns `"X"`. -/
theorem extract_component_crosses_lines :
    specExtractComponent "Component\n: X" = "Unknown" ∧
    extract_component "Component\n: X" = "X" := by decide

/-! ## C8: idempotence of cell normalization -/

theorem replaceBr_cons_eq {c : Char} {rest : List Char}
    (hne : ∀ rest2 : List Char, c = '<' → rest = 'b' :: 'r' :: '>' :: rest2 → False) :
    replaceBr (c :: rest) = c :: replaceBr rest := by
  rw [replaceBr]
  exact hne

theorem replaceNl_cons_eq {c : Char} {rest : List Char}
    (hne : ∀ rest2 : List Char, c = '\\' → rest = 'n' :: rest2 → False) :
    replaceNl (c :: rest) = c :: replaceNl rest := by
  rw [replaceNl]
  exact hne

theorem replaceBr_prefix_transfer {s : List Char} :
    ∀ {t : List Char}, '\n' ∉ t → t <+: replaceBr s → t <+: s := by
  induction s using replaceBr.induct with
  | case1 rest ih =>
    intro t hnl h
    rw [replaceBr] at h
    cases t with
    | nil => exact List.nil_prefix
    | cons c t2 =>
      rw [List.cons_prefix_cons] at h
      exact absurd (h.1 ▸ List.mem_cons_self c t2) hnl
  | case2 c rest hne ih =>
    intro t hnl h
    rw [replaceBr_cons_eq hne] at h
    cases t with
    | nil => exact List.nil_prefix
    | cons d t2 =>
      rw [List.cons_prefix_cons] at h
      have ht2 : t2 <+: rest := ih (fun hm => hnl (List.mem_cons_of_mem d hm)) h.2
      rw [List.cons_prefix_cons]
      exact ⟨h.1, ht2⟩
  | case3 =>
    intro t hnl h
    rw [replaceBr] at h
    rw [List.prefix_nil] at h
    exact h ▸ List.nil_prefix

theorem replaceBr_infix_transfer {s : List Char} :
    ∀ {t : List Char}, '\n' ∉ t → t <:+: replaceBr s → t <:+: s := by
  induction s using replaceBr.induct with
  | case1 rest ih =>
    intro t hnl h
    rw [replaceBr] at h
    rw [List.infix_cons_iff] at h
    rcases h with h | h
    · cases t with
      | nil => exact List.nil_prefix.isInfix
      | cons c t2 =>
        rw [List.cons_prefix_cons] at h
        exact absurd (h.1 ▸ List.mem_cons_self c t2) hnl
    · exact List.infix_cons (List.infix_cons (List.infix_cons (List.infix_cons (ih hnl h))))
  | case2 c rest hne ih =>
    intro t hnl h
    rw [replaceBr_cons_eq hne] at h
    rw [List.infix_cons_iff] at h
    rcases h with h | h
    · have h2 : t <+: replaceBr (c :: rest) := by
        rw [replaceBr_cons_eq hne]
        exact h
      exact (replaceBr_prefix_transfer hnl h2).isInfix
    · exact List.infix_cons (ih hnl h)
  | case3 =>
    intro t hnl h
    rw [replaceBr] at h
    simpa using h

theorem replaceNl_prefix_transfer {s : List Char} :
    ∀ {t : List Char}, '\n' ∉ t → t <+: replaceNl s → t <+: s := by
  induction s using replaceNl.induct with
  | case1 rest ih =>
    intro t hnl h
    rw [replaceNl] at h
    cases t with
    | nil => exact List.nil_prefix
    | cons c t2 =>
      rw [List.cons_prefix_cons] at h
      exact absurd (h.1 ▸ List.mem_cons_self c t2) hnl
  | case2 c rest hne ih =>
    intro t hnl h
    rw [replaceNl_cons_eq hne] at h
    cases t with
    | nil => exact List.nil_prefix
    | cons d t2 =>
      rw [List.cons_prefix_cons] at h
      have ht2 : t2 <+: rest := ih (fun hm => hnl (List.mem_cons_of_mem d hm)) h.2
      rw [List.cons_prefix_cons]
      exact ⟨h.1, ht2⟩
  | case3 =>
    intro t hnl h
    rw [replaceNl] at h
    rw [List.prefix_nil] at h
    exact h ▸ List.nil_prefix

theorem replaceNl_infix_transfer {s : List Char} :
    ∀ {t : List Char}, '\n' ∉ t → t <:+: replaceNl s → t <:+: s := by
  induction s using replaceNl.induct with
  | case1 rest ih =>
    intro t hnl h
    rw [replaceNl] at h
    rw [List.infix_cons_iff] at h
    rcases h with h | h
    · cases t with
      | nil => exact List.nil_prefix.isInfix
      | cons c t2 =>
        rw [List.cons_prefix_cons] at h
        exact absurd (h.1 ▸ List.mem_cons_self c t2) hnl
    · exact List.infix_cons (List.infix_cons (ih hnl h))
  | case2 c rest hne ih =>
    intro t hnl h
    rw [replaceNl_cons_eq hne] at h
    rw [List.infix_cons_iff] at h
    rcases h with h | h
    · have h2 : t <+: replaceNl (c :: rest) := by
        rw [replaceNl_cons_eq hne]
        exact h
      exact (replaceNl_prefix_transfer hnl h2).isInfix
    · exact List.infix_cons (ih hnl h)
  | case3 =>
    intro t hnl h
    rw [replaceNl] at h
    simpa using h

theorem replaceBr_no_br (s : List Char) : ¬ (['<', 'b', 'r', '>'] <:+: replaceBr s) := by
  induction s using replaceBr.induct with
  | case1 rest ih =>
    intro h
    rw [replaceBr] at h
    rw [List.infix_cons_iff] at h
    rcases h with h | h
    · rw [List.cons_prefix_cons] at h
      exact absurd h.1 (by decide)
    · exact ih h
  | case2 c rest hne ih =>
    intro h
    rw [replaceBr_cons_eq hne] at h
    rw [List.infix_cons_iff] at h
    rcases h with h | h
    · rw [List.cons_prefix_cons] at h
      have hpre : ['b', 'r', '>'] <+: rest :=
        replaceBr_prefix_transfer (by decide) h.2
      obtain ⟨t2, ht2⟩ := hpre
      exact hne t2 h.1.symm ht2.symm
    · exact ih h
  | case3 =>
    intro h
    rw [replaceBr] at h
    simp at h

theorem replaceNl_no_nl_lit (s : List Char) : ¬ (['\\', 'n'] <:+: replaceNl s) := by
  induction s using replaceNl.induct with
  | case1 rest ih =>
    intro h
    rw [replaceNl] at h
    rw [List.infix_cons_iff] at h
    rcases h with h | h
    · rw [List.cons_prefix_cons] at h
      exact absurd h.1 (by decide)
    · exact ih h
  | case2 c rest hne ih =>
    intro h
    rw [replaceNl_cons_eq hne] at h
    rw [List.infix_cons_iff] at h
    rcases h with h | h
    · rw [List.cons_prefix_cons] at h
      have hpre : ['n'] <+: rest :=
        replaceNl_prefix_transfer (by decide) h.2
      obtain ⟨t2, ht2⟩ := hpre
      exact hne t2 h.1.symm ht2.symm
    · exact ih h
  | case3 =>
    intro h
    rw [replaceNl] at h
    simp at h

theorem replaceBr_eq_self {s : List Char} (h : ¬ (['<', 'b', 'r', '>'] <:+: s)) :
    replaceBr s = s := by
  induction s using replaceBr.induct with
  | case1 rest ih =>
    exact absurd (List.prefix_append ['<', 'b', 'r', '>'] rest).isInfix h
  | case2 c rest hne ih =>
    rw [replaceBr_cons_eq hne]
    rw [ih (fun hm => h (List.infix_cons hm))]
  | case3 => rfl

theorem replaceNl_eq_self {s : List Char} (h : ¬ (['\\', 'n'] <:+: s)) :
    replaceNl s = s := by
  induction s using replaceNl.induct with
  | case1 rest ih =>
    exact absurd (List.prefix_append ['\\', 'n'] rest).isInfix h
  | case2 c rest hne ih =>
    rw [replaceNl_cons_eq hne]
    rw [ih (fun hm => h (List.infix_cons hm))]
  | case3 => rfl

theorem dropWhile_head_false {p : Char → Bool} {l : List Char} {a : Char} {w : List Char}
    (h : l.dropWhile p = a :: w) : p a = false := by
  induction l with
  | nil => cases h
  | cons c rest ih =>
    rw [List.dropWhile_cons] at h
    split at h
    · exact ih h
    · rename_i hc
      cases h
      simpa using hc

theorem dropWhile_self_mono {p : Char → Bool} {y z : List Char}
    (hy : y.dropWhile p = y) (hz : z <+: y) : z.dropWhile p = z := by
  cases z with
  | nil => rfl
  | cons a w =>
    cases y with
    | nil => simp at hz
    | cons b y2 =>
      rw [List.cons_prefix_cons] at hz
      have hb : p b = false := by
        by_contra hpb
        rw [List.dropWhile_cons, if_pos (by simpa using hpb)] at hy
        have hlen := (List.dropWhile_sublist (l := y2) (p := p)).length_le
        rw [hy] at hlen
        simp only [List.length_cons] at hlen
        omega
      rw [List.dropWhile_cons, if_neg (by rw [hz.1, hb]; simp)]

theorem dropWhile_idem {p : Char → Bool} {l : List Char} :
    (l.dropWhile p).dropWhile p = l.dropWhile p := by
  cases h : l.dropWhile p with
  | nil => rfl
  | cons a w =>
    rw [List.dropWhile_cons, if_neg (by rw [dropWhile_head_false h]; simp)]

theorem dropTrailingWs_prefix_self (y : List Char) : dropTrailingWs y <+: y := by
  unfold dropTrailingWs
  conv_rhs => rw [← List.reverse_reverse y]
  exact List.reverse_prefix.mpr (List.dropWhile_suffix _)

theorem dropTrailingWs_idem (y : List Char) :
    dropTrailingWs (dropTrailingWs y) = dropTrailingWs y := by
  unfold dropTrailingWs
  rw [List.reverse_reverse, dropWhile_idem]

theorem stripChars_infix_self (l : List Char) : stripChars l <:+: l :=
  (dropTrailingWs_prefix_self _).isInfix.trans (List.dropWhile_suffix _).isInfix

theorem stripChars_idem (l : List Char) : stripChars (stripChars l) = stripChars l := by
  unfold stripChars
  rw [dropWhile_self_mono dropWhile_idem (dropTrailingWs_prefix_self _), dropTrailingWs_idem]

/-- Counterexample for C8's first half: `" x"` contains neither `"<br>"`
nor a literal backslash-n, yet `clean_cell` changes it (the final `strip()`
removes the leading space), so "no `<br>` and no backslash-n remaining"
does not by itself make a value a fixed point. -/
theorem clean_cell_changes_normalized_value :
    strContains " x" "<br>" = false ∧ strContains " x" "\\n" = false ∧
    clean_cell " x" ≠ " x" := by decide

/-- C8 (amended): `clean_cell` is idempotent — `clean_cell (clean_cell v) =
clean_cell v` for every value.  (A fully normalized value must also carry
no leading/trailing whitespace; with only the no-`<br>`/no-backslash-n
condition the "returned unchanged" half fails, see
`clean_cell_changes_normalized_value`.) -/
theorem clean_cell_idempotent (v : String) : clean_cell (clean_cell v) = clean_cell v := by
  by_cases hv : v = ""
  · subst hv
    rfl
  · have hcv : clean_cell v = String.mk (stripChars (replaceNl (replaceBr v.data))) := by
      unfold clean_cell
      rw [if_neg hv]
    rw [hcv]
    by_cases hw0 : String.mk (stripChars (replaceNl (replaceBr v.data))) = ""
    · rw [hw0]
      rfl
    · unfold clean_cell
      rw [if_neg hw0]
      have hnobr : ¬ (['<', 'b', 'r', '>'] <:+: stripChars (replaceNl (replaceBr v.data))) := by
        intro hocc
        exact replaceBr_no_br v.data
          (replaceNl_infix_transfer (by decide) (hocc.trans (stripChars_infix_self _)))
      have hnonl : ¬ (['\\', 'n'] <:+: stripChars (replaceNl (replaceBr v.data))) := by
        intro hocc
        exact replaceNl_no_nl_lit (replaceBr v.data) (hocc.trans (stripChars_infix_self _))
      show String.mk (stripChars (replaceNl (replaceBr
        (stripChars (replaceNl (replaceBr v.data)))))) = _
      rw [replaceBr_eq_self hnobr, replaceNl_eq_self hnonl, stripChars_idem]

/-! ## C10: the parser discards the first and last split segments -/

theorem splitPipeAux_no_pipe {x : List Char} :
    ∀ {acc : List Char}, (∀ ch ∈ x, ch ≠ '|') →
      splitPipeAux x acc = [String.mk (acc.reverse ++ x)] := by
  induction x with
  | nil => intro acc h; simp [splitPipeAux]
  | cons c rest ih =>
    intro acc h
    rw [splitPipeAux, if_neg (by simpa using h c (by simp))]
    rw [ih (fun ch hch => h ch (by simp [hch]))]
    simp

theorem splitPipeAux_pipe_split {x : List Char} :
    ∀ {r acc : List Char}, (∀ ch ∈ x, ch ≠ '|') →
      splitPipeAux (x ++ '|' :: r) acc =
        String.mk (acc.reverse ++ x) :: splitPipeAux r [] := by
  induction x with
  | nil =>
    intro r acc h
    rw [List.nil_append, splitPipeAux, if_pos rfl]
    simp
  | cons c rest ih =>
    intro r acc h
    rw [List.cons_append, splitPipeAux, if_neg (by simpa using h c (by simp))]
    rw [ih (fun ch hch => h ch (by simp [hch]))]
    simp

theorem data_pipe : ("|" : String).data = ['|'] := rfl

theorem splitPipe_joinPipe {cells : List String} (hne : cells ≠ [])
    (hp : ∀ c ∈ cells, '|' ∉ c.data) :
    splitPipe (joinPipe cells) = cells := by
  induction cells with
  | nil => exact absurd rfl hne
  | cons c rest ih =>
    have hcp : ∀ ch ∈ c.data, ch ≠ '|' :=
      fun ch hch he => hp c (by simp) (he ▸ hch)
    cases rest with
    | nil =>
      show splitPipeAux (joinPipe [c]).data [] = [c]
      rw [joinPipe, splitPipeAux_no_pipe hcp]
      simp [string_mk_data]
    | cons c2 rest2 =>
      show splitPipeAux (joinPipe (c :: c2 :: rest2)).data [] = _
      have hj : (joinPipe (c :: c2 :: rest2)).data
          = c.data ++ '|' :: (joinPipe (c2 :: rest2)).data := by
        rw [joinPipe]
        · simp [String.data_append, data_pipe]
        · exact List.cons_ne_nil c2 rest2
      rw [hj, splitPipeAux_pipe_split hcp]
      rw [show splitPipeAux (joinPipe (c2 :: rest2)).data [] =
        splitPipe (joinPipe (c2 :: rest2)) from rfl]
      rw [ih (List.cons_ne_nil c2 rest2) (fun x hx => hp x (by simp [hx]))]
      simp [string_mk_data]

theorem splitPipeAux_joinPipe_pipe {cells : List String} (hne : cells ≠ [])
    (hp : ∀ c ∈ cells, '|' ∉ c.data) :
    ∀ {r : List Char},
      splitPipeAux ((joinPipe cells).data ++ '|' :: r) [] =
        cells ++ splitPipeAux r [] := by
  induction cells with
  | nil => exact absurd rfl hne
  | cons c rest ih =>
    intro r
    have hcp : ∀ ch ∈ c.data, ch ≠ '|' :=
      fun ch hch he => hp c (by simp) (he ▸ hch)
    cases rest with
    | nil =>
      rw [joinPipe, splitPipeAux_pipe_split hcp]
      simp [string_mk_data]
    | cons c2 rest2 =>
      have hj : (joinPipe (c :: c2 :: rest2)).data
          = c.data ++ '|' :: (joinPipe (c2 :: rest2)).data := by
        rw [joinPipe]
        · simp [String.data_append, data_pipe]
        · exact List.cons_ne_nil c2 rest2
      rw [hj, List.append_assoc, List.cons_append]
      rw [splitPipeAux_pipe_split hcp]
      rw [ih (List.cons_ne_nil c2 rest2) (fun x hx => hp x (by simp [hx]))]
      simp [string_mk_data]

theorem splitPipe_renderRow {cells : List String} (hne : cells ≠ [])
    (hp : ∀ c ∈ cells, '|' ∉ c.data) :
    splitPipe (renderRow cells) = "" :: cells ++ [""] := by
  show splitPipeAux (renderRow cells).data [] = _
  have hr : (renderRow cells).data = '|' :: ((joinPipe cells).data ++ ['|']) := by
    rw [renderRow]
    simp [String.data_append, data_pipe]
  rw [hr, splitPipeAux, if_pos rfl]
  have h2 : splitPipeAux ((joinPipe cells).data ++ ['|']) [] = cells ++ splitPipeAux [] [] :=
    splitPipeAux_joinPipe_pipe hne hp
  rw [h2]
  rfl

theorem rowSegs_renderRow {cells : List String} (hne : cells ≠ [])
    (hp : ∀ c ∈ cells, '|' ∉ c.data) :
    rowSegs (renderRow cells) = cells := by
  unfold rowSegs
  rw [splitPipe_renderRow hne hp]
  simp [List.dropLast_concat]

/-- C10: `parse_markdown_table` splits each header and data line on `"|"`
and unconditionally discards the first and last split segments
(`split("|")[1:-1]`, embedded as `rowSegs`).  For a row framed by leading
and trailing separators this recovers exactly the cells; for an unframed
row (cells joined by separators with no outer frame) the first and the
last cell are silently lost. -/
theorem rowSegs_drops_first_and_last (cells : List String) (hne : cells ≠ [])
    (hp : ∀ c ∈ cells, strContains c "|" = false) :
    rowSegs (joinPipe cells) = (cells.drop 1).dropLast ∧
    rowSegs (renderRow cells) = cells := by
  have hp2 : ∀ c ∈ cells, '|' ∉ c.data :=
    fun c hc => strContains_pipe_eq_false.mp (hp c hc)
  constructor
  · unfold rowSegs
    rw [splitPipe_joinPipe hne hp2]
  · exact rowSegs_renderRow hne hp2

/-- Witness for C10: the unframed row `"a|b|c"` loses its first and last
cells (only `"b"` survives), while the framed row `"|a|b|c|"` keeps all
three. -/
theorem rowSegs_drops_first_and_last_witness :
    rowSegs (joinPipe ["a", "b", "c"]) = ["b"] ∧
    rowSegs (renderRow ["a", "b", "c"]) = ["a", "b", "c"] := by
  have h := rowSegs_drops_first_and_last ["a", "b", "c"] (by decide) (by decide)
  exact ⟨h.1, h.2⟩

/-! ## C1: correctness of table parsing on well-formed tables -/

theorem renderRow_data (cells : List String) :
    (renderRow cells).data = '|' :: ((joinPipe cells).data ++ ['|']) := by
  rw [renderRow]
  simp [String.data_append, data_pipe]

theorem renderRow_hasPipe (cells : List String) :
    strContains (renderRow cells) "|" = true := by
  unfold strContains
  rw [renderRow_data, data_pipe, containsSub]
  rw [List.isPrefixOf_cons₂]
  simp [List.isPrefixOf]

theorem findTableStart_append {pre rest : List String} {h0 : String}
    (hpre : ∀ l ∈ pre, (strContains l "|" && strContains l "Test Case ID") = false)
    (hh : (strContains h0 "|" && strContains h0 "Test Case ID") = true) :
    findTableStart (pre ++ h0 :: rest) = some (h0 :: rest) := by
  induction pre with
  | nil => rw [List.nil_append, findTableStart, if_pos hh]
  | cons p pre2 ih =>
    rw [List.cons_append, findTableStart, if_neg (by simp [hpre p (by simp)])]
    exact ih (fun l hl => hpre l (by simp [hl]))

theorem collectTable_split (xs post : List String)
    (hxs : ∀ l ∈ xs, strContains l "|" = true)
    (hpost : ∀ l, post.head? = some l → strContains l "|" = false) :
    ∀ acc : List String, (acc ≠ [] ∨ xs ≠ []) →
      collectTable (xs ++ post) acc = acc.reverse ++ xs := by
  induction xs with
  | nil =>
    intro acc hne
    have hacc : acc ≠ [] := by
      rcases hne with h | h
      · exact h
      · exact absurd rfl h
    rw [List.nil_append]
    cases post with
    | nil => rw [collectTable]; simp
    | cons p rest =>
      rw [collectTable, if_neg (by simp [hpost p rfl])]
      rw [if_neg (by simpa using hacc)]
      simp
  | cons x xs2 ih =>
    intro acc hne
    rw [List.cons_append, collectTable, if_pos (hxs x (by simp))]
    rw [ih (fun l hl => hxs l (by simp [hl])) (x :: acc) (Or.inl (List.cons_ne_nil x acc))]
    simp


theorem requiredFields_length : requiredFields.length = 7 := rfl

theorem filterMap_rendered {rows : List (List String)}
    (hrowp : ∀ r ∈ rows, ∀ c ∈ r, strContains c "|" = false)
    (hrowne : ∀ r ∈ rows, r ≠ []) :
    (rows.map renderRow).filterMap (fun row =>
      if ((rowSegs row).map clean_cell).length = requiredFields.length
      then some (requiredFields.zip ((rowSegs row).map clean_cell)) else none)
    = (rows.filter (fun r => r.length = 7)).map
        (fun r => requiredFields.zip (r.map clean_cell)) := by
  induction rows with
  | nil => rfl
  | cons r rest ih =>
    rw [List.map_cons, List.filterMap_cons, List.filter_cons]
    have hseg : rowSegs (renderRow r) = r :=
      rowSegs_renderRow (hrowne r (by simp))
        (fun c hc => strContains_pipe_eq_false.mp (hrowp r (by simp) c hc))
    rw [hseg]
    have hih := ih (fun x hx => hrowp x (by simp [hx])) (fun x hx => hrowne x (by simp [hx]))
    by_cases h7 : r.length = 7
    · rw [if_pos (by simp [h7, requiredFields_length]), if_pos (by simp [h7])]
      rw [List.map_cons, hih]
    · rw [if_neg (by simp [requiredFields_length]; omega), if_neg (by simpa using h7)]
      exact hih

theorem parseTableLines_correct
    (hdrCells : List String) (sep : String) (rows : List (List String))
    (post : List String)
    (hhdrp : ∀ c ∈ hdrCells, strContains c "|" = false)
    (hhdrne : hdrCells ≠ [])
    (hstrip : hdrCells.map pyStrip = requiredFields)
    (hsep : strContains sep "|" = true)
    (hrowp : ∀ r ∈ rows, ∀ c ∈ r, strContains c "|" = false)
    (hrowne : ∀ r ∈ rows, r ≠ [])
    (hpost : ∀ l, post.head? = some l → strContains l "|" = false)
    (hsome : rows.filter (fun r => r.length = 7) ≠ []) :
    parseTableLines (renderRow hdrCells :: sep :: (rows.map renderRow ++ post)) =
      Except.ok ((rows.filter (fun r => r.length = 7)).map
        (fun r => requiredFields.zip (r.map clean_cell))) := by
  have hrne : rows ≠ [] := by
    intro h
    rw [h] at hsome
    exact hsome rfl
  have hct : collectTable (renderRow hdrCells :: sep :: (rows.map renderRow ++ post)) []
      = renderRow hdrCells :: sep :: rows.map renderRow := by
    have h := collectTable_split
      (renderRow hdrCells :: sep :: rows.map renderRow) post
      (fun l hl => by
        rw [List.mem_cons] at hl
        rcases hl with h | hl
        · rw [h]; exact renderRow_hasPipe hdrCells
        · rw [List.mem_cons] at hl
          rcases hl with h | hl
          · rw [h]; exact hsep
          · obtain ⟨r, hr, hrr⟩ := List.mem_map.mp hl
            rw [← hrr]; exact renderRow_hasPipe r)
      hpost [] (Or.inr (by simp))
    simpa using h
  unfold parseTableLines
  simp only []
  rw [show (renderRow hdrCells :: sep :: (rows.map renderRow ++ post))
    = (renderRow hdrCells :: sep :: rows.map renderRow) ++ post by simp] at hct ⊢
  rw [hct]
  have hlen : ¬ ((renderRow hdrCells :: sep :: rows.map renderRow).length < 3) := by
    have h1 : 0 < rows.length := List.length_pos.mpr hrne
    simp only [List.length_cons, List.length_map]
    omega
  rw [if_neg hlen]
  simp only [List.getD_cons_zero, List.drop_succ_cons, List.drop_zero]
  rw [rowSegs_renderRow hhdrne
    (fun c hc => strContains_pipe_eq_false.mp (hhdrp c hc)), hstrip]
  rw [filterMap_rendered hrowp hrowne]
  have hne2 : (rows.filter (fun r => r.length = 7)).map
      (fun r => requiredFields.zip (r.map clean_cell)) ≠ [] := by
    intro h
    exact hsome (List.map_eq_nil_iff.mp h)
  rw [if_neg (by simpa [List.isEmpty_iff] using hne2)]

/-- C1: for every well-formed markdown table in the response — arbitrary
preceding lines none of which contain both `"|"` and `"Test Case ID"`, a
framed header row whose stripped cells are the seven required field names,
a separator line containing `"|"`, framed data rows (cells free of the
separator character) and trailing lines starting without `"|"` —
`parse_markdown_table` returns exactly the data rows whose cell count
equals the header's field count (seven), in the original row order, each
record zipping the header field names with the `clean_cell`-normalized
cells; rows with a mismatched cell count are dropped without affecting the
others. -/
theorem parse_markdown_table_correct
    (md : String) (pre : List String) (hdrCells : List String) (sep : String)
    (rows : List (List String)) (post : List String)
    (hsplit : pySplitlines md
      = pre ++ renderRow hdrCells :: sep :: (rows.map renderRow ++ post))
    (hpre : ∀ l ∈ pre, (strContains l "|" && strContains l "Test Case ID") = false)
    (hhdr : strContains (renderRow hdrCells) "Test Case ID" = true)
    (hhdrp : ∀ c ∈ hdrCells, strContains c "|" = false)
    (hhdrne : hdrCells ≠ [])
    (hstrip : hdrCells.map pyStrip = requiredFields)
    (hsep : strContains sep "|" = true)
    (hrowp : ∀ r ∈ rows, ∀ c ∈ r, strContains c "|" = false)
    (hrowne : ∀ r ∈ rows, r ≠ [])
    (hpost : ∀ l, post.head? = some l → strContains l "|" = false)
    (hsome : rows.filter (fun r => r.length = 7) ≠ []) :
    parse_markdown_table md =
      Except.ok ((rows.filter (fun r => r.length = 7)).map
        (fun r => requiredFields.zip (r.map clean_cell))) := by
  unfold parse_markdown_table
  rw [hsplit, findTableStart_append hpre (by simp [renderRow_hasPipe, hhdr])]
  exact parseTableLines_correct hdrCells sep rows post hhdrp hhdrne hstrip hsep
    hrowp hrowne hpost hsome

/-- Witness for C1: a concrete response with a prose line, a padded-free
seven-column table, one well-formed data row, one malformed (two-cell) data
row and a trailing prose line parses to exactly the one surviving record. -/
theorem parse_markdown_table_correct_witness :
    parse_markdown_table
      "x\n|Test Case ID|Preconditions|Test Condition|Steps with description|Expected Result|Actual Result|Remarks|\n|-|-|-|-|-|-|-|\n|TC001|p|c|s|e||r|\n|bad|row|\ndone"
    = Except.ok ((([["TC001", "p", "c", "s", "e", "", "r"], ["bad", "row"]]
        : List (List String)).filter (fun r => r.length = 7)).map
          (fun r => requiredFields.zip (r.map clean_cell))) := by
  exact parse_markdown_table_correct _ ["x"] requiredFields "|-|-|-|-|-|-|-|"
    [["TC001", "p", "c", "s", "e", "", "r"], ["bad", "row"]] ["done"]
    (by decide) (by decide) (by decide) (by decide) (by decide) (by decide)
    (by decide) (by decide) (by decide) (by decide) (by decide)

/-! ## C3, C7, C9: the spreadsheet projector -/

theorem setCell_self (ws : Sheet) (r c : Nat) (v : CellVal) : setCell ws r c v r c = v := by
  simp [setCell]

theorem setCell_ne {ws : Sheet} {r c : Nat} {v : CellVal} {r2 c2 : Nat}
    (h : ¬(r2 = r ∧ c2 = c)) : setCell ws r c v r2 c2 = ws r2 c2 := by
  unfold setCell
  by_cases h1 : r2 = r
  · have h2 : ¬ c2 = c := fun hc => h ⟨h1, hc⟩
    simp [h1, h2]
  · simp [h1]

theorem setCellOpt_ne {ws : Sheet} {r c : Nat} {v : Option String} {r2 c2 : Nat}
    (h : ¬(r2 = r ∧ c2 = c)) : setCellOpt ws r c v r2 c2 = ws r2 c2 := by
  cases v with
  | none => rfl
  | some s => exact setCell_ne h

theorem setCellOpt_self (ws : Sheet) (r c : Nat) (v : Option String) :
    setCellOpt ws r c v r c = cellAfterWrite (ws r c) v := by
  cases v with
  | none => rfl
  | some s => exact setCell_self ws r c _

theorem writeRow_frame {ws : Sheet} {row : Nat} {tc : TestCase} {r c : Nat}
    (h : r ≠ row ∨ c < 2 ∨ 8 < c) : writeRow ws row tc r c = ws r c := by
  have hk : ∀ k : Nat, 2 ≤ k → k ≤ 8 → ¬(r = row ∧ c = k) := by
    rintro k hk2 hk8 ⟨h1, h2⟩
    rcases h with h | h | h
    · exact h h1
    · omega
    · omega
  unfold writeRow
  rw [setCellOpt_ne (hk 8 (by omega) (by omega)),
    setCellOpt_ne (hk 7 (by omega) (by omega)),
    setCellOpt_ne (hk 6 (by omega) (by omega)),
    setCellOpt_ne (hk 5 (by omega) (by omega)),
    setCellOpt_ne (hk 4 (by omega) (by omega)),
    setCellOpt_ne (hk 3 (by omega) (by omega)),
    setCellOpt_ne (hk 2 (by omega) (by omega))]

theorem writeRow_at (ws : Sheet) (row : Nat) (tc : TestCase) :
    writeRow ws row tc row 2 = cellAfterWrite (ws row 2) (tcGet tc "Test Case ID") ∧
    writeRow ws row tc row 3 = cellAfterWrite (ws row 3) (tcGet tc "Preconditions") ∧
    writeRow ws row tc row 4 = cellAfterWrite (ws row 4) (tcGet tc "Test Condition") ∧
    writeRow ws row tc row 5 = cellAfterWrite (ws row 5) (tcGet tc "Steps with description") ∧
    writeRow ws row tc row 6 = cellAfterWrite (ws row 6) (tcGet tc "Expected Result") ∧
    writeRow ws row tc row 7 = cellAfterWrite (ws row 7) (tcGet tc "Actual Result") ∧
    writeRow ws row tc row 8 = cellAfterWrite (ws row 8) (tcGet tc "Remarks") := by
  have hp : ∀ k k2 : Nat, k ≠ k2 → ¬(row = row ∧ k = k2) :=
    fun k k2 hne hand => hne hand.2
  unfold writeRow
  refine ⟨?_, ?_, ?_, ?_, ?_, ?_, ?_⟩
  · rw [setCellOpt_ne (hp 2 8 (by omega)), setCellOpt_ne (hp 2 7 (by omega)),
      setCellOpt_ne (hp 2 6 (by omega)), setCellOpt_ne (hp 2 5 (by omega)),
      setCellOpt_ne (hp 2 4 (by omega)), setCellOpt_ne (hp 2 3 (by omega)),
      setCellOpt_self]
  · rw [setCellOpt_ne (hp 3 8 (by omega)), setCellOpt_ne (hp 3 7 (by omega)),
      setCellOpt_ne (hp 3 6 (by omega)), setCellOpt_ne (hp 3 5 (by omega)),
      setCellOpt_ne (hp 3 4 (by omega)), setCellOpt_self,
      setCellOpt_ne (hp 3 2 (by omega))]
  · rw [setCellOpt_ne (hp 4 8 (by omega)), setCellOpt_ne (hp 4 7 (by omega)),
      setCellOpt_ne (hp 4 6 (by omega)), setCellOpt_ne (hp 4 5 (by omega)),
      setCellOpt_self, setCellOpt_ne (hp 4 3 (by omega)),
      setCellOpt_ne (hp 4 2 (by omega))]
  · rw [setCellOpt_ne (hp 5 8 (by omega)), setCellOpt_ne (hp 5 7 (by omega)),
      setCellOpt_ne (hp 5 6 (by omega)), setCellOpt_self,
      setCellOpt_ne (hp 5 4 (by omega)), setCellOpt_ne (hp 5 3 (by omega)),
      setCellOpt_ne (hp 5 2 (by omega))]
  · rw [setCellOpt_ne (hp 6 8 (by omega)), setCellOpt_ne (hp 6 7 (by omega)),
      setCellOpt_self, setCellOpt_ne (hp 6 5 (by omega)),
      setCellOpt_ne (hp 6 4 (by omega)), setCellOpt_ne (hp 6 3 (by omega)),
      setCellOpt_ne (hp 6 2 (by omega))]
  · rw [setCellOpt_ne (hp 7 8 (by omega)), setCellOpt_self,
      setCellOpt_ne (hp 7 6 (by omega)), setCellOpt_ne (hp 7 5 (by omega)),
      setCellOpt_ne (hp 7 4 (by omega)), setCellOpt_ne (hp 7 3 (by omega)),
      setCellOpt_ne (hp 7 2 (by omega))]
  · rw [setCellOpt_self, setCellOpt_ne (hp 8 7 (by omega)),
      setCellOpt_ne (hp 8 6 (by omega)), setCellOpt_ne (hp 8 5 (by omega)),
      setCellOpt_ne (hp 8 4 (by omega)), setCellOpt_ne (hp 8 3 (by omega)),
      setCellOpt_ne (hp 8 2 (by omega))]

theorem writeRowsFrom_frame (tcs : List TestCase) :
    ∀ (ws : Sheet) (start r c : Nat),
      (r < start ∨ start + tcs.length ≤ r ∨ c < 2 ∨ 8 < c) →
      writeRowsFrom ws start tcs r c = ws r c := by
  induction tcs with
  | nil => intro ws start r c h; rfl
  | cons tc rest ih =>
    intro ws start r c h
    rw [writeRowsFrom]
    rw [ih (writeRow ws start tc) (start + 1) r c (by
      rcases h with h | h | h | h
      · omega
      · right; left; simp only [List.length_cons] at h; omega
      · right; right; left; exact h
      · right; right; right; exact h)]
    exact writeRow_frame (by
      rcases h with h | h | h | h
      · left; omega
      · left; simp only [List.length_cons] at h; omega
      · right; left; exact h
      · right; right; exact h)

theorem writeRowsFrom_at (tcs : List TestCase) :
    ∀ (i : Nat) (h : i < tcs.length) (ws : Sheet) (start : Nat),
      writeRowsFrom ws start tcs (start + i) 2
        = cellAfterWrite (ws (start + i) 2) (tcGet (tcs.get ⟨i, h⟩) "Test Case ID") ∧
      writeRowsFrom ws start tcs (start + i) 3
        = cellAfterWrite (ws (start + i) 3) (tcGet (tcs.get ⟨i, h⟩) "Preconditions") ∧
      writeRowsFrom ws start tcs (start + i) 4
        = cellAfterWrite (ws (start + i) 4) (tcGet (tcs.get ⟨i, h⟩) "Test Condition") ∧
      writeRowsFrom ws start tcs (start + i) 5
        = cellAfterWrite (ws (start + i) 5) (tcGet (tcs.get ⟨i, h⟩) "Steps with description") ∧
      writeRowsFrom ws start tcs (start + i) 6
        = cellAfterWrite (ws (start + i) 6) (tcGet (tcs.get ⟨i, h⟩) "Expected Result") ∧
      writeRowsFrom ws start tcs (start + i) 7
        = cellAfterWrite (ws (start + i) 7) (tcGet (tcs.get ⟨i, h⟩) "Actual Result") ∧
      writeRowsFrom ws start tcs (start + i) 8
        = cellAfterWrite (ws (start + i) 8) (tcGet (tcs.get ⟨i, h⟩) "Remarks") := by
  induction tcs with
  | nil => intro i h; exact absurd h (by simp)
  | cons tc rest ih =>
    intro i h ws start
    cases i with
    | zero =>
      rw [writeRowsFrom]
      simp only [Nat.add_zero]
      have hfr : ∀ c : Nat, 2 ≤ c → c ≤ 8 →
          writeRowsFrom (writeRow ws start tc) (start + 1) rest start c
            = writeRow ws start tc start c := by
        intro c h2 h8
        exact writeRowsFrom_frame rest _ _ _ _ (Or.inl (by omega))
      have hat := writeRow_at ws start tc
      have hget : (tc :: rest).get ⟨0, h⟩ = tc := rfl
      rw [hget]
      refine ⟨?_, ?_, ?_, ?_, ?_, ?_, ?_⟩
      · rw [hfr 2 (by omega) (by omega)]
        exact hat.1
      · rw [hfr 3 (by omega) (by omega)]
        exact hat.2.1
      · rw [hfr 4 (by omega) (by omega)]
        exact hat.2.2.1
      · rw [hfr 5 (by omega) (by omega)]
        exact hat.2.2.2.1
      · rw [hfr 6 (by omega) (by omega)]
        exact hat.2.2.2.2.1
      · rw [hfr 7 (by omega) (by omega)]
        exact hat.2.2.2.2.2.1
      · rw [hfr 8 (by omega) (by omega)]
        exact hat.2.2.2.2.2.2
    | succ j =>
      rw [writeRowsFrom]
      have hstep : start + (j + 1) = (start + 1) + j := by omega
      rw [hstep]
      have hj : j < rest.length := by
        simp only [List.length_cons] at h
        omega
      have hget : (tc :: rest).get ⟨j + 1, h⟩ = rest.get ⟨j, hj⟩ := rfl
      rw [hget]
      have hihj := ih j hj (writeRow ws start tc) (start + 1)
      have hwf : ∀ c2 : Nat,
          writeRow ws start tc (start + 1 + j) c2 = ws (start + 1 + j) c2 :=
        fun c2 => writeRow_frame (Or.inl (by omega))
      simp only [hwf] at hihj
      exact hihj

theorem component_label_norm :
    rstripColon (pyLower "Component") ++ ":" = "component" ++ ":" := rfl

theorem injectHeader_frame {ws : Sheet} {name : String} {r c : Nat}
    (h : (r, c) ≠ headerTarget ws) : injectHeader ws name r c = ws r c := by
  unfold injectHeader set_header
  rw [component_label_norm]
  unfold headerTarget findComponentCell at h
  cases hf : findLabelCell ws ("component" ++ ":") with
  | some rc =>
    rw [hf] at h
    simp only [] at h ⊢
    refine setCell_ne ?_
    rintro ⟨h1, h2⟩
    exact h (by rw [h1, h2])
  | none =>
    rw [hf] at h
    simp only [] at h ⊢
    refine setCell_ne ?_
    rintro ⟨h1, h2⟩
    exact h (by rw [h1, h2])

/-- C7: the header-injection stage of `fill_excel_template`.  If some cell
in rows 1–9, columns 1–11 of the "Testcases" sheet holds a string that
case-insensitively starts with `"component:"`, the first such cell in scan
order is rewritten to its original label part, a colon and the new
component name, and the fixed fallback cell (row 2, column 5) is left
untouched; if no such cell exists, the fallback cell is set to
`"Component: <name>"` and every other cell is left untouched. -/
theorem fill_excel_template_header_injection (ws : Sheet) (name : String) :
    (∀ r c, findComponentCell ws = some (r, c) →
      injectHeader ws name r c
          = CellVal.vstr (labelPart (ws r c) ++ ": " ++ name) ∧
        (¬(r = 2 ∧ c = 5) → injectHeader ws name 2 5 = ws 2 5)) ∧
    (findComponentCell ws = none →
      injectHeader ws name 2 5 = CellVal.vstr ("Component: " ++ name) ∧
        ∀ r c, ¬(r = 2 ∧ c = 5) → injectHeader ws name r c = ws r c) := by
  constructor
  · intro r c hfind
    unfold findComponentCell at hfind
    constructor
    · unfold injectHeader set_header
      rw [component_label_norm, hfind]
      exact setCell_self ws r c _
    · intro hne
      unfold injectHeader set_header
      rw [component_label_norm, hfind]
      refine setCell_ne ?_
      rintro ⟨h1, h2⟩
      exact hne ⟨by omega, by omega⟩
  · intro hfind
    unfold findComponentCell at hfind
    constructor
    · unfold injectHeader set_header
      rw [component_label_norm, hfind]
      exact setCell_self ws 2 5 _
    · intro r c hne
      unfold injectHeader set_header
      rw [component_label_norm, hfind]
      exact setCell_ne (fun hp => hne ⟨hp.1, hp.2⟩)

/-- C3 (amended): `fill_excel_template` writes record `i` (0-based) at
spreadsheet row `6 + i`, mapping the seven documented fields to columns
2–8 in the documented order: a field present in the record places its
value into the corresponding cell, while a *missing* field leaves that
cell's pre-existing content unchanged — openpyxl's
`ws.cell(row, column, value)` skips the assignment when the value is
`None` — so a missing field renders empty only when the template cell was
empty (see `fill_missing_field_keeps_template_cell`); record fields
outside the fixed seven are never read. -/
theorem fill_excel_template_places_rows (ws : Sheet) (component_name : String)
    (tcs : List TestCase) (i : Nat) (h : i < tcs.length) :
    fill_excel_template ws tcs component_name (6 + i) 2
      = cellAfterWrite (injectHeader ws component_name (6 + i) 2)
          (tcGet (tcs.get ⟨i, h⟩) "Test Case ID") ∧
    fill_excel_template ws tcs component_name (6 + i) 3
      = cellAfterWrite (injectHeader ws component_name (6 + i) 3)
          (tcGet (tcs.get ⟨i, h⟩) "Preconditions") ∧
    fill_excel_template ws tcs component_name (6 + i) 4
      = cellAfterWrite (injectHeader ws component_name (6 + i) 4)
          (tcGet (tcs.get ⟨i, h⟩) "Test Condition") ∧
    fill_excel_template ws tcs component_name (6 + i) 5
      = cellAfterWrite (injectHeader ws component_name (6 + i) 5)
          (tcGet (tcs.get ⟨i, h⟩) "Steps with description") ∧
    fill_excel_template ws tcs component_name (6 + i) 6
      = cellAfterWrite (injectHeader ws component_name (6 + i) 6)
          (tcGet (tcs.get ⟨i, h⟩) "Expected Result") ∧
    fill_excel_template ws tcs component_name (6 + i) 7
      = cellAfterWrite (injectHeader ws component_name (6 + i) 7)
          (tcGet (tcs.get ⟨i, h⟩) "Actual Result") ∧
    fill_excel_template ws tcs component_name (6 + i) 8
      = cellAfterWrite (injectHeader ws component_name (6 + i) 8)
          (tcGet (tcs.get ⟨i, h⟩) "Remarks") :=
  writeRowsFrom_at tcs i h (injectHeader ws component_name) 6

/-- C9: `fill_excel_template` modifies only the header-injection target
(the matched labelled cell, or the fallback cell (2, 5)) and the data
region rows `6` to `6 + n - 1`, columns 2–8; every other cell keeps its
template value.  The template sheet value itself is an immutable input —
the output is a new sheet value (load-then-save-as-copy). -/
theorem fill_excel_template_frame (ws : Sheet) (tcs : List TestCase)
    (name : String) (r c : Nat) (hh : (r, c) ≠ headerTarget ws)
    (hdata : ¬(6 ≤ r ∧ r < 6 + tcs.length ∧ 2 ≤ c ∧ c ≤ 8)) :
    fill_excel_template ws tcs name r c = ws r c := by
  unfold fill_excel_template
  rw [writeRowsFrom_frame tcs _ 6 r c (by omega)]
  exact injectHeader_frame hh

/-- A concrete template sheet carrying a `Component:`-labelled cell at
row 2, column 3. -/
def tmplWith : Sheet := fun r c =>
  if r = 2 then (if c = 3 then CellVal.vstr "Component: Old" else CellVal.vnone)
  else CellVal.vnone

/-- A concrete template sheet with no labelled cell. -/
def tmplBare : Sheet := fun _ _ => CellVal.vnone

/-- A concrete record carrying all seven documented fields. -/
def tcW : TestCase :=
  [("Test Case ID", "TC001"), ("Preconditions", "p"), ("Test Condition", "c"),
   ("Steps with description", "s"), ("Expected Result", "e"),
   ("Actual Result", ""), ("Remarks", "r")]

/-- Witness for C7: on the labelled template the matched cell (2, 3) is
rewritten preserving its label part and the fallback cell stays untouched;
on the bare template the fallback cell (2, 5) receives the fresh label. -/
theorem fill_excel_template_header_injection_witness :
    injectHeader tmplWith "Login" 2 3 = CellVal.vstr "Component: Login" ∧
    injectHeader tmplWith "Login" 2 5 = tmplWith 2 5 ∧
    injectHeader tmplBare "Login" 2 5 = CellVal.vstr "Component: Login" := by
  have hfw : findComponentCell tmplWith = some (2, 3) := by decide
  have hfb : findComponentCell tmplBare = none := by decide
  have h1 := (fill_excel_template_header_injection tmplWith "Login").1 2 3 hfw
  have h2 := (fill_excel_template_header_injection tmplBare "Login").2 hfb
  exact ⟨h1.1.trans (by decide), h1.2 (by decide), h2.1.trans (by decide)⟩

/-- Witness for C3: the single record of a concrete job lands in row 6,
columns 2–8, in the documented field order. -/
theorem fill_excel_template_places_rows_witness :
    fill_excel_template tmplBare [tcW] "X" (6 + 0) 2 = CellVal.vstr "TC001" ∧
    fill_excel_template tmplBare [tcW] "X" (6 + 0) 5 = CellVal.vstr "s" ∧
    fill_excel_template tmplBare [tcW] "X" (6 + 0) 8 = CellVal.vstr "r" := by
  have h := fill_excel_template_places_rows tmplBare "X" [tcW] 0 (by decide)
  exact ⟨h.1.trans (by decide), h.2.2.2.1.trans (by decide),
    h.2.2.2.2.2.2.trans (by decide)⟩

/-- A template sheet with pre-existing (non-label) content inside the data
region, at row 6, column 3. -/
def tmplData : Sheet := fun r c =>
  if r = 6 then (if c = 3 then CellVal.vstr "Leftover" else CellVal.vnone)
  else CellVal.vnone

/-- A record missing the `Preconditions` field. -/
def tcNoPre : TestCase :=
  [("Test Case ID", "TC001"), ("Test Condition", "c"),
   ("Steps with description", "s"), ("Expected Result", "e"),
   ("Actual Result", ""), ("Remarks", "r")]

/-- Counterexample for C3's missing-field clause: a record without the
`Preconditions` field passes `None` to `ws.cell(row=6, column=3, ...)`,
which skips the assignment, so the template's pre-existing content
survives in the output — the cell is not rendered empty. -/
theorem fill_missing_field_keeps_template_cell :
    tcGet tcNoPre "Preconditions" = none ∧
    fill_excel_template tmplData [tcNoPre] "X" 6 3 = CellVal.vstr "Leftover" ∧
    CellVal.vstr "Leftover" ≠ CellVal.vnone := by decide

/-- Witness for C9: a cell outside both the header target and the data
region keeps its template value. -/
theorem fill_excel_template_frame_witness :
    fill_excel_template tmplBare [tcW] "X" 1 1 = tmplBare 1 1 :=
  fill_excel_template_frame tmplBare [tcW] "X" 1 1 (by decide) (by decide)

/-! ## C4 (amended): per-line agreement on hazard-free responses -/

theorem splitNlChars_append {L R : List Char} (h : ∀ c ∈ L, c ≠ '\n') :
    splitNlChars (L ++ '\n' :: R) = L :: splitNlChars R := by
  induction L with
  | nil => rw [List.nil_append, splitNlChars, if_pos rfl]
  | cons c L2 ih =>
    rw [List.cons_append, splitNlChars, if_neg (h c (by simp))]
    rw [ih (fun x hx => h x (by simp [hx]))]
    rfl

theorem splitNlChars_no_nl {u : List Char} (h : '\n' ∉ u) : splitNlChars u = [u] := by
  induction u with
  | nil => rfl
  | cons c rest ih =>
    rw [splitNlChars, if_neg (fun hc => h (by simp [hc]))]
    rw [ih (fun hm => h (by simp [hm]))]
    rfl

theorem componentScanAux_append {L R : List Char} (h : ∀ c ∈ L, c ≠ '\n') :
    componentScanAux (L ++ '\n' :: R) = componentScan R := by
  induction L with
  | nil =>
    rw [List.nil_append, componentScanAux, if_pos rfl]
    rfl
  | cons c L2 ih =>
    rw [List.cons_append, componentScanAux, if_neg (h c (by simp))]
    exact ih (fun x hx => h x (by simp [hx]))

theorem componentScanAux_none {u : List Char} (h : '\n' ∉ u) :
    componentScanAux u = none := by
  induction u with
  | nil => rfl
  | cons c rest ih =>
    rw [componentScanAux, if_neg (fun hc => h (by simp [hc]))]
    exact ih (fun hm => h (by simp [hm]))

theorem exists_nl_split {u : List Char} (h : '\n' ∈ u) :
    ∃ L R, u = L ++ '\n' :: R ∧ ∀ c ∈ L, c ≠ '\n' := by
  induction u with
  | nil => cases h
  | cons c rest ih =>
    by_cases hc : c = '\n'
    · exact ⟨[], rest, by rw [hc, List.nil_append], by simp⟩
    · have hr : '\n' ∈ rest := by
        rcases List.mem_cons.mp h with h1 | h1
        · exact absurd h1.symm hc
        · exact h1
      obtain ⟨L, R, hu, hL⟩ := ih hr
      refine ⟨c :: L, R, by rw [List.cons_append, ← hu], ?_⟩
      intro x hx
      rcases List.mem_cons.mp hx with h1 | h1
      · rw [h1]; exact hc
      · exact hL x h1

theorem matchCI_append {pat : List Char} (hp : ∀ c ∈ pat, c.toLower ≠ '\n') :
    ∀ {x y : List Char}, matchCI pat (x ++ '\n' :: y)
      = match matchCI pat x with
        | some b => some (b ++ '\n' :: y)
        | none => none := by
  induction pat with
  | nil => intro x y; rfl
  | cons p ps ih =>
    intro x y
    cases x with
    | nil =>
      rw [List.nil_append]
      conv_lhs => rw [matchCI]
      rw [if_neg (fun he => hp p (by simp)
        (Eq.trans (Eq.symm he) (show Char.toLower '\n' = '\n' from by decide)))]
      rfl
    | cons a x2 =>
      rw [List.cons_append]
      simp only [matchCI]
      by_cases hc : a.toLower = p.toLower
      · rw [if_pos hc, if_pos hc]
        exact ih (fun c hcm => hp c (by simp [hcm]))
      · rw [if_neg hc, if_neg hc]

theorem matchCI_some_suffix : ∀ {pat x b : List Char}, matchCI pat x = some b → b <:+ x := by
  intro pat
  induction pat with
  | nil =>
    intro x b h
    cases h
    exact List.suffix_rfl
  | cons p ps ih =>
    intro x b h
    cases x with
    | nil => cases h
    | cons a x2 =>
      rw [matchCI] at h
      split at h
      · exact (ih h).trans (List.suffix_cons a x2)
      · cases h

theorem takeWhile_nnl_append {xs : List Char} (h : ∀ c ∈ xs, c ≠ '\n') :
    ∀ {ys : List Char},
      (xs ++ '\n' :: ys).takeWhile (fun x => x ≠ '\n') = xs := by
  induction xs with
  | nil =>
    intro ys
    rw [List.nil_append, List.takeWhile_cons]
    simp
  | cons c rest ih =>
    intro ys
    rw [List.cons_append, List.takeWhile_cons]
    rw [if_pos (by simpa using h c (by simp))]
    rw [ih (fun x hx => h x (by simp [hx]))]

theorem takeWhile_nnl_self {xs : List Char} (h : ∀ c ∈ xs, c ≠ '\n') :
    xs.takeWhile (fun x => x ≠ '\n') = xs :=
  List.takeWhile_eq_self_iff.mpr (fun x hx => by simpa using h x hx)

theorem all_ws_false_dropWhile_ne_nil {t : List Char} (h : t.all isPyWs = false) :
    t.dropWhile isPyWs ≠ [] := by
  rw [Ne, List.dropWhile_eq_nil_iff]
  intro hall
  have h2 := List.all_eq_true.mpr hall
  rw [h] at h2
  cases h2

theorem matchValue_append {t : List Char} (hnl : ∀ c ∈ t, c ≠ '\n')
    (hnw : t.all isPyWs = false) :
    ∀ {R : List Char}, matchValue (t ++ '\n' :: R) = matchValue t := by
  intro R
  have hdt : t.dropWhile isPyWs ≠ [] := all_ws_false_dropWhile_ne_nil hnw
  have hdwa : (t ++ '\n' :: R).dropWhile isPyWs = t.dropWhile isPyWs ++ '\n' :: R := by
    rw [List.dropWhile_append, if_neg (by simpa using hdt)]
  unfold matchValue
  rw [hdwa]
  cases hdv : t.dropWhile isPyWs with
  | nil => exact absurd hdv hdt
  | cons d dt2 =>
    rw [List.cons_append]
    simp only []
    have hmem : ∀ c ∈ d :: dt2, c ≠ '\n' := by
      intro c hc
      exact hnl c ((List.dropWhile_sublist isPyWs).mem (hdv ▸ hc))
    rw [show (d :: (dt2 ++ '\n' :: R)) = ((d :: dt2) ++ '\n' :: R) from rfl]
    rw [takeWhile_nnl_append hmem, takeWhile_nnl_self hmem]

theorem tryAt_append_of_ws {L R : List Char} (hLa : L.all isPyWs = true) :
    tryAt (L ++ '\n' :: R) = tryAt R ∧ tryAt L = none := by
  have hdL : L.dropWhile isPyWs = [] :=
    List.dropWhile_eq_nil_iff.mpr (fun x hx => List.all_eq_true.mp hLa x hx)
  constructor
  · unfold tryAt
    rw [List.dropWhile_append, if_pos (by simp [hdL])]
    rw [List.dropWhile_cons, if_pos (by decide)]
  · unfold tryAt
    rw [hdL]
    rfl

theorem tryAt_append_of_not_ws {L R : List Char}
    (hLnl : ∀ c ∈ L, c ≠ '\n') (hnw : L.all isPyWs = false)
    (hhz : hazardous L = false) :
    tryAt (L ++ '\n' :: R) = tryAt L := by
  have hdL := all_ws_false_dropWhile_ne_nil hnw
  have hdw : (L ++ '\n' :: R).dropWhile isPyWs = L.dropWhile isPyWs ++ '\n' :: R := by
    rw [List.dropWhile_append, if_neg (by simpa using hdL)]
  unfold tryAt
  rw [hdw, matchCI_append (by decide)]
  unfold hazardous at hhz
  cases hm : matchCI "component".data (L.dropWhile isPyWs) with
  | none => rfl
  | some b =>
    rw [hm] at hhz
    simp only [] at hhz ⊢
    have hbnw : b.all isPyWs = false := by
      cases hb : b.all isPyWs
      · rfl
      · rw [hb, if_pos rfl] at hhz
        cases hhz
    rw [if_neg (by simp [hbnw])] at hhz
    have hdb := all_ws_false_dropWhile_ne_nil hbnw
    have hdwb : (b ++ '\n' :: R).dropWhile isPyWs = b.dropWhile isPyWs ++ '\n' :: R := by
      rw [List.dropWhile_append, if_neg (by simpa using hdb)]
    rw [hdwb]
    have hbmem : ∀ c ∈ b, c ≠ '\n' := fun c hc =>
      hLnl c ((List.dropWhile_sublist isPyWs).mem ((matchCI_some_suffix hm).mem hc))
    cases hdv : b.dropWhile isPyWs with
    | nil => exact absurd hdv hdb
    | cons d t =>
      rw [hdv] at hhz
      rw [List.cons_append]
      simp only [] at hhz ⊢
      by_cases hd : d = ':'
      · rw [if_pos hd, if_pos hd]
        rw [if_pos hd] at hhz
        have htmem : ∀ c ∈ t, c ≠ '\n' := fun c hc =>
          hbmem c ((List.dropWhile_sublist isPyWs).mem (hdv ▸ List.mem_cons_of_mem d hc))
        exact matchValue_append htmem hhz
      · rw [if_neg hd, if_neg hd]

theorem componentScan_eq_findSome :
    ∀ (n : Nat) (u : List Char), u.length ≤ n →
      (∀ l ∈ splitNlChars u, hazardous l = false) →
      componentScan u = (splitNlChars u).findSome? tryAt := by
  intro n
  induction n with
  | zero =>
    intro u hu _
    have h0 : u = [] := List.length_eq_zero.mp (Nat.le_zero.mp hu)
    subst h0
    rfl
  | succ n ih =>
    intro u hu hhz
    by_cases hnl : '\n' ∈ u
    · obtain ⟨L, R, hu2, hLnl⟩ := exists_nl_split hnl
      subst hu2
      have hsplit := splitNlChars_append (R := R) hLnl
      have hRlen : R.length ≤ n := by
        rw [List.length_append, List.length_cons] at hu
        omega
      have hhzL : hazardous L = false := hhz L (by rw [hsplit]; simp)
      have hhzR : ∀ l ∈ splitNlChars R, hazardous l = false := fun l hl =>
        hhz l (by rw [hsplit]; simp [hl])
      have hscan : componentScan (L ++ '\n' :: R)
          = match tryAt (L ++ '\n' :: R) with
            | some v => some v
            | none => componentScan R := by
        conv_lhs => unfold componentScan
        rw [componentScanAux_append hLnl]
      rw [hscan, hsplit, List.findSome?_cons]
      cases hLa : L.all isPyWs
      · rw [tryAt_append_of_not_ws hLnl hLa hhzL]
        cases htL : tryAt L
        · simp only []
          exact ih R hRlen hhzR
        · simp only []
      · obtain ⟨he1, he2⟩ := tryAt_append_of_ws (R := R) hLa
        rw [he1, he2]
        simp only []
        rw [← ih R hRlen hhzR]
        cases htR : tryAt R
        · simp only []
        · simp only []
          conv_rhs => unfold componentScan
          rw [htR]
    · rw [splitNlChars_no_nl hnl, List.findSome?_cons]
      unfold componentScan
      rw [componentScanAux_none hnl]
      cases tryAt u
      · rfl
      · rfl

/-- C4 (amended): the regex whitespace class includes newlines, so a match
may span lines (label, colon and value on different lines); see
`extract_component_crosses_lines`.  On *hazard-free* responses — no line
consists of just (whitespace +) a `Component` label, or a label and colon
with a whitespace-only tail, which are the only ways a match can continue
onto the next line — `extract_component` agrees with the per-line reading
of the spec: the trimmed value of the first line matching
`Component:<value>` case-insensitively, and `"Unknown"` when no line
matches. -/
theorem extract_component_per_line_of_no_hazard (s : String)
    (h : ∀ l ∈ splitNl s, hazardous l = false) :
    extract_component s = specExtractComponent s := by
  unfold extract_component specExtractComponent
  rw [show splitNl s = splitNlChars s.data from rfl] at h ⊢
  rw [componentScan_eq_findSome s.data.length s.data le_rfl h]

/-- Witness for C4 (amended): a concrete hazard-free response on which the
whole-text search and the per-line scan agree (first `Component:` line
wins). -/
theorem extract_component_per_line_witness :
    extract_component "Note\nComponent: Login\nComponent: Z"
      = specExtractComponent "Note\nComponent: Login\nComponent: Z" ∧
    specExtractComponent "Note\nComponent: Login\nComponent: Z" = "Login" := by
  constructor
  · exact extract_component_per_line_of_no_hazard _ (by decide)
  · decide
